import Mathlib

/-!
Verification of the shelf restore/merge engine (vscode-shelf).

The definitions below are a shallow embedding of the engine found in the
repository source: the JSON structural differ (findJsonConflicts), the
JSON conflict-marker builder (buildJsonWithConflicts), the line-based
conflict-marker builder (insertConflictMarkers), the JSON dispatch
(insertJsonConflictMarkers / isJsonFile) and the restore orchestrator
(restoreSingleFile / restoreFilesFromShelf).

Modelling conventions:
- JavaScript values parsed from JSON are modelled by the inductive
  `Json` (a mutual inductive with its list types so that structural
  recursion and executable code are available).  JSON numbers are
  modelled as integers: the inputs exercised here use only integer
  literals and the engine only compares numbers for equality.  Objects
  are association lists; values produced by JSON.parse have distinct
  keys (duplicates collapse, last value wins), which `objGet` mirrors
  by returning the last binding.
- Property access models own data properties of objects and canonical
  index properties of arrays.  Prototype-inherited names and the array
  "length" property are outside the model; no input used below touches
  them.
- Recursive functions whose recursion is not structural are written
  with an explicit fuel argument (structural recursion on the fuel)
  so that every definition is kernel-reducible; the public wrappers
  instantiate the fuel with `jsize`, which always suffices, so the
  wrappers compute the same function as the source.
- The file system is modelled as a partial map from path strings to
  file contents (`FSModel`); directory creation has no observable
  effect in this content model.  `pathJoin` models Node path.join on
  the simple relative segments used here.
- File contents are modelled as strings; the engine compares snapshot
  and workspace bytes for equality only (Buffer.compare === 0), which
  string equality mirrors.
-/

mutual
inductive Json where
  | null : Json
  | bool (b : Bool) : Json
  | num (n : Int) : Json
  | str (s : String) : Json
  | arr (items : JsonList) : Json
  | obj (members : JsonMems) : Json

inductive JsonList where
  | nil : JsonList
  | cons (hd : Json) (tl : JsonList) : JsonList

inductive JsonMems where
  | nil : JsonMems
  | cons (key : String) (val : Json) (tl : JsonMems) : JsonMems
end

def JsonList.toList : JsonList → List Json
  | .nil => []
  | .cons x xs => x :: xs.toList

def JsonMems.toList : JsonMems → List (String × Json)
  | .nil => []
  | .cons k v xs => (k, v) :: xs.toList

def JsonList.ofList : List Json → JsonList
  | [] => .nil
  | x :: xs => .cons x (JsonList.ofList xs)

def JsonMems.ofList : List (String × Json) → JsonMems
  | [] => .nil
  | (k, v) :: xs => .cons k v (JsonMems.ofList xs)

/-- Truncates a JSON array's element list to its first `n` elements
(used to state that rendering ignores shelved-only array elements). -/
def jsonListTake : Nat → JsonList → JsonList
  | 0, _ => .nil
  | _ + 1, .nil => .nil
  | n + 1, .cons x xs => .cons x (jsonListTake n xs)

/-- Builds an array value from a plain list. -/
def jarr (xs : List Json) : Json := .arr (JsonList.ofList xs)

/-- Builds an object value from a plain association list. -/
def jobj (kvs : List (String × Json)) : Json := .obj (JsonMems.ofList kvs)

mutual
/-- Structural size of a JSON value, used as recursion fuel. -/
def jsize : Json → Nat
  | .null => 1
  | .bool _ => 1
  | .num _ => 1
  | .str _ => 1
  | .arr xs => 1 + jsizeL xs
  | .obj kvs => 1 + jsizeM kvs

def jsizeL : JsonList → Nat
  | .nil => 1
  | .cons x xs => 1 + jsize x + jsizeL xs

def jsizeM : JsonMems → Nat
  | .nil => 1
  | .cons _ v xs => 1 + jsize v + jsizeM xs
end

/-- The JavaScript `typeof` of a parsed JSON value (`typeof null`,
`typeof []` and `typeof {}` are all the string "object"). -/
def typeOf : Json → String
  | .null => "object"
  | .bool _ => "boolean"
  | .num _ => "number"
  | .str _ => "string"
  | .arr _ => "object"
  | .obj _ => "object"

def isNull : Json → Bool
  | .null => true
  | _ => false

/-- Whether both values are arrays (the Array.isArray guard pair). -/
def bothArr : Json → Json → Bool
  | .arr _, .arr _ => true
  | _, _ => false

/-- Equality test reached by the differ's `!==` comparisons, which are
only evaluated on null and on primitives of equal `typeof`. -/
def primEq : Json → Json → Bool
  | .null, .null => true
  | .bool a, .bool b => a == b
  | .num a, .num b => a == b
  | .str a, .str b => a == b
  | _, _ => false

/-- Looks a key up in an object's member list; the last binding wins,
mirroring how JSON.parse collapses duplicate keys. -/
def objGet : List (String × Json) → String → Option Json
  | [], _ => none
  | kv :: rest, k =>
    match objGet rest k with
    | some v => some v
    | none => if kv.1 = k then some kv.2 else none

/-- Parses a digit-only string (no sign, no blanks). -/
def digitsToNat? : List Char → Option Nat
  | [] => none
  | cs =>
    cs.foldl (fun acc c =>
      match acc with
      | none => none
      | some n => if '0' ≤ c ∧ c ≤ '9' then some (n * 10 + (c.toNat - 48)) else none)
      (some 0)

/-- Canonical numeric string test used for array property access:
JavaScript `"0" in [5]` holds while `"01" in [5]` does not. -/
def natKey? (k : String) : Option Nat :=
  match digitsToNat? k.data with
  | some n => if toString n = k then some n else none
  | none => none

/-- JavaScript property access (`v[key]`) on parsed JSON containers,
restricted to own data properties: object members and canonical array
indices.  Returns `none` where JavaScript yields `undefined`. -/
def getProp : Json → String → Option Json
  | .obj kvs, k => objGet kvs.toList k
  | .arr xs, k =>
    (match natKey? k with
     | some n => xs.toList[n]?
     | none => none)
  | _, _ => none

/-- First-occurrence de-duplication: the iteration order of a JavaScript
`Set` built by inserting the given list in order. -/
def dedupFirst : List String → List String → List String
  | _, [] => []
  | seen, x :: xs =>
    if x ∈ seen then dedupFirst seen xs
    else x :: dedupFirst (x :: seen) xs

/-- `Object.keys` of a parsed JSON value: member names for objects,
canonical index strings for arrays, empty otherwise. -/
def jsKeys : Json → List String
  | .obj kvs => dedupFirst [] (kvs.toList.map (fun kv => kv.1))
  | .arr xs => (List.range xs.toList.length).map (fun i => toString i)
  | _ => []

/-- Fuel-indexed body of findJsonConflicts (source part_001 lines
443-498).  Structural recursion on the fuel keeps the definition
kernel-reducible; the wrapper below supplies sufficient fuel. -/
def fjcF : Nat → Json → Json → List String → List (List String)
  | 0, _, _, _ => []
  | n + 1, c, s, path =>
    if typeOf c ≠ typeOf s then [path]
    else if ¬ isNull c ∧ ¬ isNull s ∧ typeOf c ≠ "object" then
      (if primEq c s then [] else [path])
    else if isNull c ∨ isNull s then
      (if primEq c s then [] else [path])
    else
      match c, s with
      | .arr xs, .arr ys =>
        (List.range (max xs.toList.length ys.toList.length)).flatMap (fun i =>
          match xs.toList[i]?, ys.toList[i]? with
          | some cv, some sv => fjcF n cv sv (path ++ [toString i])
          | _, _ => [path ++ [toString i]])
      | c, s =>
        (dedupFirst [] (jsKeys c ++ jsKeys s)).flatMap (fun k =>
          match getProp c k, getProp s k with
          | some cv, some sv => fjcF n cv sv (path ++ [k])
          | _, _ => [path ++ [k]])

/-- Deep-compares two parsed JSON values and returns the paths of
conflicting properties (source function findJsonConflicts). -/
def findJsonConflicts (c s : Json) (path : List String) : List (List String) :=
  fjcF (jsize c + jsize s) c s path

/-! ### Text line differ (Modelled from the spec)

`diffLines` in the source is imported from the external `diff` npm
package, which is not part of this repository.  Modelled from the spec:
spec section 4.1 describes it as a deterministic minimal-edit-distance
(longest-common-subsequence) differ over lines, where a line is a
maximal run ending at a line terminator or at end of text, and the
output is an ordered list of unchanged/added/removed line runs whose
concatenation rules reconstruct each input. -/

/-- One diff segment: an unchanged, added or removed run of text. -/
inductive Seg where
  | unchanged (v : String) : Seg
  | added (v : String) : Seg
  | removed (v : String) : Seg

def Seg.text : Seg → String
  | .unchanged v => v
  | .added v => v
  | .removed v => v

/-- Splits text into lines, each keeping its terminator (CRLF, LF or CR);
a final unterminated run is kept as a last line. -/
def splitLinesAux : List Char → List Char → List String
  | acc, [] => if acc.isEmpty then [] else [String.mk acc.reverse]
  | acc, '\r' :: '\n' :: rest => String.mk (acc.reverse ++ ['\r', '\n']) :: splitLinesAux [] rest
  | acc, '\n' :: rest => String.mk (acc.reverse ++ ['\n']) :: splitLinesAux [] rest
  | acc, '\r' :: rest => String.mk (acc.reverse ++ ['\r']) :: splitLinesAux [] rest
  | acc, c :: rest => splitLinesAux (c :: acc) rest

def splitLines (s : String) : List String := splitLinesAux [] s.data

/-- Length of a longest common subsequence of the two line lists
(fuel-indexed; fuel `a.length + b.length` suffices). -/
def lcsF : Nat → List String → List String → Nat
  | 0, _, _ => 0
  | _ + 1, [], _ => 0
  | _ + 1, _, [] => 0
  | n + 1, a :: as, b :: bs =>
    if a = b then lcsF n as bs + 1
    else max (lcsF n (a :: as) bs) (lcsF n as (b :: bs))

def lcsLen (a b : List String) : Nat := lcsF (a.length + b.length) a b

/-- LCS-based line diff: common lines become `unchanged`; on a mismatch
the branch keeping the longer common subsequence is taken, emitting
`removed` before `added` on ties (fuel-indexed). -/
def diffListF : Nat → List String → List String → List Seg
  | 0, _, _ => []
  | _ + 1, [], [] => []
  | n + 1, [], b :: bs => .added b :: diffListF n [] bs
  | n + 1, a :: as, [] => .removed a :: diffListF n as []
  | n + 1, a :: as, b :: bs =>
    if a = b then .unchanged a :: diffListF n as bs
    else if lcsLen (a :: as) bs ≤ lcsLen as (b :: bs) then
      .removed a :: diffListF n as (b :: bs)
    else .added b :: diffListF n (a :: as) bs

/-- Merges adjacent segments of the same tag into one run. -/
def mergeSegs : List Seg → List Seg
  | [] => []
  | s :: rest =>
    match s, mergeSegs rest with
    | .unchanged v, .unchanged w :: ts => .unchanged (v ++ w) :: ts
    | .added v, .added w :: ts => .added (v ++ w) :: ts
    | .removed v, .removed w :: ts => .removed (v ++ w) :: ts
    | s, ts => s :: ts

/-- Modelled from the spec: the Text Line Differ of spec section 4.1
(the external `diff` package's diffLines). -/
def diffLines (a b : String) : List Seg :=
  mergeSegs (diffListF ((splitLines a).length + (splitLines b).length)
    (splitLines a) (splitLines b))

/-! ### Line-based conflict-marker builder (source insertConflictMarkers,
part_001 lines 736-800, and the identical inline fallback of
insertJsonConflictMarkers, lines 562-604) -/

/-- First line terminator (CRLF, LF or CR) found in a character list,
mirroring the regex scan of the source detectLineEnding. -/
def firstEnding : List Char → Option String
  | [] => none
  | '\r' :: '\n' :: _ => some "\r\n"
  | '\r' :: _ => some "\r"
  | '\n' :: _ => some "\n"
  | _ :: rest => firstEnding rest

/-- Scans the two texts in order for the first line terminator (source
function detectLineEnding; it is always called with these two texts). -/
def detectLineEnding (a b : String) : Option String :=
  match firstEnding a.data with
  | some e => some e
  | none => firstEnding b.data

/-- Whether a string ends with a LF or CR character (the source tests
endsWith of the one-character strings LF and CR). -/
def endsWithTerm (s : String) : Bool :=
  match s.data.getLast? with
  | some c => c == '\n' || c == '\r'
  | none => false

/-- One git-style conflict block, exactly as pushed by the source
flushPending closure: start marker, left content (terminator-padded when
unterminated), separator, right content (same padding), end marker. -/
def markerBlock (le entryName pending addedValue : String) : List String :=
  ["<<<<<<< Current Workspace" ++ le]
    ++ (if pending ≠ "" then
          [pending] ++ (if endsWithTerm pending then [] else [le])
        else [])
    ++ ["=======" ++ le]
    ++ (if addedValue ≠ "" then
          [addedValue] ++ (if endsWithTerm addedValue then [] else [le])
        else [])
    ++ [">>>>>>> Shelf: " ++ entryName ++ le]

/-- Walks the diff segments with the pending-removed buffer protocol of
the source: removed text accumulates; added text flushes one block with
the pending buffer on the left; unchanged text first flushes a pending
buffer against an empty right side, then passes through verbatim; a
trailing pending buffer is flushed at the end. -/
def lineMarkerCore (le entryName : String) (diffs : List Seg) : String :=
  let step := fun (st : List String × String) (seg : Seg) =>
    match seg with
    | .removed v => (st.1, st.2 ++ v)
    | .added v => (st.1 ++ markerBlock le entryName st.2 v, "")
    | .unchanged v =>
      if st.2 ≠ "" then (st.1 ++ markerBlock le entryName st.2 "" ++ [v], "")
      else (st.1 ++ [v], "")
  let res := diffs.foldl step ([], "")
  let finalParts := if res.2 ≠ "" then res.1 ++ markerBlock le entryName res.2 "" else res.1
  String.join finalParts

/-- The text written by the line-based branch of insertConflictMarkers
(and by the identical inline fallback inside insertJsonConflictMarkers):
line-ending detection, line diff, then the marker walk.  `eol` stands
for the host platform terminator os.EOL used when neither text contains
a terminator. -/
def lineMarkerText (eol entryName currentText shelfText : String) : String :=
  let le := (detectLineEnding currentText shelfText).getD eol
  lineMarkerCore le entryName (diffLines currentText shelfText)

/-! ### JSON file classification (source isJsonFile, part_001 lines 423-426) -/

/-- Node path.extname: the substring of the basename from its last dot,
empty for dotless names and for names whose only dot leads (dotfiles). -/
def extname (p : String) : String :=
  let b := (p.data.reverse.takeWhile (fun c => c ≠ '/')).reverse
  let rb := b.reverse
  match rb.findIdx? (fun c => c = '.') with
  | none => ""
  | some i => if i + 1 = b.length then "" else String.mk ('.' :: (rb.take i).reverse)

def toLowerStr (s : String) : String := String.mk (s.data.map Char.toLower)

/-- Whether a path is handled by the JSON-aware marker builder (source
isJsonFile): extension .json or .jsonc, case-insensitively. -/
def isJsonFile (p : String) : Bool :=
  let ext := toLowerStr (extname p)
  ext == ".json" || ext == ".jsonc"

/-! ### JSON conflict-marker builder (source buildJsonWithConflicts,
part_001 lines 633-731) -/

def hexDigit (n : Nat) : Char :=
  if n < 10 then Char.ofNat (48 + n) else Char.ofNat (87 + n)

/-- JSON string escaping as performed by JSON.stringify. -/
def escChar (c : Char) : String :=
  if c = '"' then "\\\""
  else if c = '\\' then "\\\\"
  else if c = '\x08' then "\\b"
  else if c = '\x0c' then "\\f"
  else if c = '\n' then "\\n"
  else if c = '\r' then "\\r"
  else if c = '\t' then "\\t"
  else if c.toNat < 32 then
    "\\u00" ++ String.mk [hexDigit (c.toNat / 16), hexDigit (c.toNat % 16)]
  else String.singleton c

def jsonQuote (s : String) : String :=
  "\"" ++ String.join (s.data.map escChar) ++ "\""

/-- `n` copies of the two-space indent unit. -/
def indentUnits (n : Nat) : String := String.join (List.replicate n "  ")

/-- JSON.stringify(v, null, 2) (fuel-indexed): 2-space indentation, one
element or key per line, with a newline character (never the detected
terminator) inside the pretty-printed layout. -/
def stringifyF : Nat → Json → Nat → String
  | 0, _, _ => ""
  | n + 1, v, depth =>
    match v with
    | .null => "null"
    | .bool true => "true"
    | .bool false => "false"
    | .num i => toString i
    | .str s => jsonQuote s
    | .arr xs =>
      match xs.toList with
      | [] => "[]"
      | l =>
        "[\n"
          ++ String.intercalate ",\n"
              (l.map (fun x => indentUnits (depth + 1) ++ stringifyF n x (depth + 1)))
          ++ "\n" ++ indentUnits depth ++ "]"
    | .obj kvs =>
      match kvs.toList with
      | [] => "\x7b\x7d"
      | l =>
        "\x7b\n"
          ++ String.intercalate ",\n"
              (l.map (fun kv =>
                indentUnits (depth + 1) ++ jsonQuote kv.1 ++ ": "
                  ++ stringifyF n kv.2 (depth + 1)))
          ++ "\n" ++ indentUnits depth ++ "\x7d"

/-- JSON.stringify(v, null, 2). -/
def stringify2 (v : Json) : String := stringifyF (jsize v) v 0

/-- JavaScript split on the LF character: separators are consumed and a
trailing separator yields a final empty field. -/
def splitNlAux : List Char → List Char → List String
  | acc, [] => [String.mk acc.reverse]
  | acc, '\n' :: rest => String.mk acc.reverse :: splitNlAux [] rest
  | acc, c :: rest => splitNlAux (c :: acc) rest

def splitOnNl (s : String) : List String := splitNlAux [] s.data

/-- The source re-indents every line of a pretty-printed sub-value but
the first by indentStr plus two spaces (the split/map/join over LF). -/
def indentTailLines (indentStr s : String) : String :=
  match splitOnNl s with
  | [] => s
  | l :: ls => String.intercalate "\n" (l :: ls.map (fun line => indentStr ++ "  " ++ line))

/-- One side of a JSON conflict block: the "(deleted)" sentinel when the
value is absent, otherwise the re-indented pretty-printed value. -/
def conflictSide (indentStr : String) : Option Json → String
  | none => "(deleted)"
  | some v => indentTailLines indentStr (stringify2 v)

/-- Fuel-indexed body of the buildValue closure inside
buildJsonWithConflicts.  `cset` is the set of dot-joined conflict paths;
membership of the current node is decided by its dot-joined path key.
`none` stands for a JavaScript undefined side. -/
def buildValueF (cset : List String) (entryName le : String) :
    Nat → Option Json → Option Json → List String → Nat → String
  | 0, _, _, _, _ => ""
  | n + 1, currentVal, shelfVal, path, indent =>
    let pathKey := String.intercalate "." path
    let indentStr := indentUnits indent
    if pathKey ∈ cset then
      "<<<<<<< Current Workspace" ++ le
        ++ indentStr ++ "  " ++ conflictSide indentStr currentVal ++ le
        ++ indentStr ++ "=======" ++ le
        ++ indentStr ++ "  " ++ conflictSide indentStr shelfVal ++ le
        ++ indentStr ++ ">>>>>>> Shelf: " ++ entryName ++ le
    else
      match currentVal with
      | some .null => "null"
      | none => "undefined"
      | some (.str s) => jsonQuote s
      | some (.num i) => toString i
      | some (.bool true) => "true"
      | some (.bool false) => "false"
      | some (.arr xs) =>
        let l := xs.toList
        if l.length = 0 then "[]"
        else
          let shelfArray := match shelfVal with
            | some (.arr ys) => ys.toList
            | _ => []
          let items := (List.range (max l.length shelfArray.length)).filterMap (fun index =>
            if h : index < l.length then
              some (indentStr ++ "  "
                ++ buildValueF cset entryName le n (some (l.get ⟨index, h⟩))
                    shelfArray[index]? (path ++ [toString index]) (indent + 1))
            else none)
          "[\n" ++ String.intercalate ",\n" items ++ "\n" ++ indentStr ++ "]"
      | some (.obj kvs) =>
        let l := kvs.toList
        let keys := jsKeys (.obj kvs)
        let shelfKeys := match shelfVal with
          | some (.arr ys) => jsKeys (.arr ys)
          | some (.obj svs) => jsKeys (.obj svs)
          | _ => []
        let allKeys := dedupFirst [] (keys ++ shelfKeys)
        if allKeys.length = 0 then "\x7b\x7d"
        else
          let pairs := allKeys.map (fun key =>
            let currentKeyValue := objGet l key
            let shelfKeyValue := match shelfVal with
              | some sv => getProp sv key
              | none => none
            indentStr ++ "  " ++ jsonQuote key ++ ": "
              ++ buildValueF cset entryName le n currentKeyValue shelfKeyValue
                  (path ++ [key]) (indent + 1))
          "\x7b\n" ++ String.intercalate ",\n" pairs ++ "\n" ++ indentStr ++ "\x7d"

/-- Builds the JSON text with conflict markers at conflicting properties
(source function buildJsonWithConflicts): the conflict-path set is the
set of dot-joined path strings, and rendering starts from the two root
values at indent 0. -/
def buildJsonWithConflicts (current shelf : Json) (conflictPaths : List (List String))
    (entryName lineEnding : String) : String :=
  let cset := conflictPaths.map (fun p => String.intercalate "." p)
  buildValueF cset entryName lineEnding (jsize current + jsize shelf)
    (some current) (some shelf) [] 0

/-! ### JSON-aware marker entry point (source insertJsonConflictMarkers,
part_001 lines 547-610) and dispatch (source insertConflictMarkers,
lines 736-800)

JSON.parse is external library code; the parser is therefore passed as
an abstract `tryParse` argument, `none` standing for a parse failure
(the source tryParseJson returns success=false exactly when JSON.parse
throws).  The fallback branch of the source duplicates, line for line,
the segment walk of insertConflictMarkers, so both are modelled by the
shared `lineMarkerText`. -/

def insertJsonConflictMarkersText (tryParse : String → Option Json)
    (eol entryName currentText shelfText : String) : String :=
  match tryParse currentText, tryParse shelfText with
  | some currentData, some shelfData =>
    let conflictPaths := findJsonConflicts currentData shelfData []
    if conflictPaths.length = 0 then currentText
    else
      let le := (detectLineEnding currentText shelfText).getD eol
      buildJsonWithConflicts currentData shelfData conflictPaths entryName le
  | _, _ => lineMarkerText eol entryName currentText shelfText

/-- The text written to the target by insertConflictMarkers: the
JSON-aware builder for .json/.jsonc paths, the line-based walk
otherwise. -/
def insertConflictMarkersText (tryParse : String → Option Json)
    (eol targetPath entryName currentText shelfText : String) : String :=
  if isJsonFile targetPath then
    insertJsonConflictMarkersText tryParse eol entryName currentText shelfText
  else lineMarkerText eol entryName currentText shelfText

/-! ### Restore orchestrator (source restoreSingleFile, part_001 lines
331-379, and restoreFilesFromShelf, lines 284-327) -/

inductive RestoreStatus where
  | restored : RestoreStatus
  | identical : RestoreStatus
  | skipped : RestoreStatus
  | conflictMarked : RestoreStatus
  deriving DecidableEq

structure RestoreFileResult where
  status : RestoreStatus
  conflict : Bool
  deriving DecidableEq

/-- The choice returned by the injected conflict-resolution step
(showDiffForConflict): apply the shelf version, keep the current file,
or mark the conflict inline.  A dismissed prompt maps to skip. -/
inductive ConflictResolutionChoice where
  | apply : ConflictResolutionChoice
  | skip : ConflictResolutionChoice
  | mark : ConflictResolutionChoice

structure UnshelveSummary where
  restored : Nat
  skipped : Nat
  identical : Nat
  errors : Nat
  conflicts : Nat
  conflictMarkers : Nat
  deriving DecidableEq

def emptySummary : UnshelveSummary :=
  { restored := 0, skipped := 0, identical := 0, errors := 0,
    conflicts := 0, conflictMarkers := 0 }

/-- The file system as a partial map from paths to file contents. -/
abbrev FSModel := String → Option String

def fsWrite (fs : FSModel) (p c : String) : FSModel :=
  fun q => if q = p then some c else fs q

/-- Node path.join for the root/relative combinations used by the
engine. -/
def pathJoin (a b : String) : String := a ++ "/" ++ b

/-- Restores a single shelved file (source restoreSingleFile): missing
snapshot throws; a missing destination is written silently; identical
bytes are left alone; force-override overwrites without recording a
conflict; otherwise the injected policy decides between overwrite,
skip and inline conflict markers.  `policy` models the interactive
showDiffForConflict step, keyed by the relative path. -/
def restoreSingleFile (tryParse : String → Option Json) (eol : String)
    (policy : String → ConflictResolutionChoice) (entryName : String) (fs : FSModel)
    (relativePath workspacePath entryDir : String) (forceOverride : Bool) :
    Except String (RestoreFileResult × FSModel) :=
  let shelfFilePath := pathJoin entryDir relativePath
  match fs shelfFilePath with
  | none => .error ("Shelf file not found: " ++ relativePath)
  | some shelfContent =>
    let targetPath := pathJoin workspacePath relativePath
    match fs targetPath with
    | none =>
      .ok ({ status := .restored, conflict := false }, fsWrite fs targetPath shelfContent)
    | some targetContent =>
      if shelfContent = targetContent then
        .ok ({ status := .identical, conflict := false }, fs)
      else if forceOverride then
        .ok ({ status := .restored, conflict := false }, fsWrite fs targetPath shelfContent)
      else
        match policy relativePath with
        | .apply =>
          .ok ({ status := .restored, conflict := true }, fsWrite fs targetPath shelfContent)
        | .mark =>
          .ok ({ status := .conflictMarked, conflict := true },
            fsWrite fs targetPath
              (insertConflictMarkersText tryParse eol targetPath entryName
                targetContent shelfContent))
        | .skip => .ok ({ status := .skipped, conflict := true }, fs)

/-- Updates the summary with one per-file result, exactly as the switch
in restoreFilesFromShelf does: the conflict flag bumps `conflicts`, and
the status bumps exactly one of the four outcome counters. -/
def tallyResult (s : UnshelveSummary) (r : RestoreFileResult) : UnshelveSummary :=
  let s1 := if r.conflict then { s with conflicts := s.conflicts + 1 } else s
  match r.status with
  | .restored => { s1 with restored := s1.restored + 1 }
  | .identical => { s1 with identical := s1.identical + 1 }
  | .skipped => { s1 with skipped := s1.skipped + 1 }
  | .conflictMarked => { s1 with conflictMarkers := s1.conflictMarkers + 1 }

/-- One iteration of the orchestrator loop: a thrown per-file error is
caught, counted, and leaves the file system untouched. -/
def restoreStep (tryParse : String → Option Json) (eol : String)
    (policy : String → ConflictResolutionChoice) (entryName : String)
    (workspacePath entryDir : String) (forceOverride : Bool)
    (st : UnshelveSummary × FSModel) (relativePath : String) :
    UnshelveSummary × FSModel :=
  match restoreSingleFile tryParse eol policy entryName st.2 relativePath
      workspacePath entryDir forceOverride with
  | .ok (result, fs') => (tallyResult st.1 result, fs')
  | .error _ => ({ st.1 with errors := st.1.errors + 1 }, st.2)

/-- Restores a list of shelved files (source restoreFilesFromShelf),
aggregating the per-file results into an UnshelveSummary; the
orchestrator itself never throws. -/
def restoreFilesFromShelf (tryParse : String → Option Json) (eol : String)
    (policy : String → ConflictResolutionChoice) (entryName : String) (fs : FSModel)
    (relativePaths : List String) (workspacePath entryDir : String)
    (forceOverride : Bool) : UnshelveSummary × FSModel :=
  relativePaths.foldl
    (restoreStep tryParse eol policy entryName workspacePath entryDir forceOverride)
    (emptySummary, fs)

/-! ### Statement helpers -/

/-- Componentwise sum of two summaries. -/
def addSummary (a b : UnshelveSummary) : UnshelveSummary :=
  { restored := a.restored + b.restored,
    skipped := a.skipped + b.skipped,
    identical := a.identical + b.identical,
    errors := a.errors + b.errors,
    conflicts := a.conflicts + b.conflicts,
    conflictMarkers := a.conflictMarkers + b.conflictMarkers }

/-- A summary recording one error and nothing else. -/
def oneErrorSummary : UnshelveSummary :=
  { restored := 0, skipped := 0, identical := 0, errors := 1,
    conflicts := 0, conflictMarkers := 0 }

/-- Sum of the five mutually exclusive per-file outcome counters (every
processed path lands in exactly one; `conflicts` is a secondary flag
counter, not an outcome). -/
def outcomeTotal (s : UnshelveSummary) : Nat :=
  s.restored + s.identical + s.skipped + s.conflictMarkers + s.errors

def isPre : List Char → List Char → Bool
  | [], _ => true
  | _ :: _, [] => false
  | a :: as, b :: bs => a == b && isPre as bs

def containsSubAux : List Char → List Char → Bool
  | needle, [] => isPre needle []
  | needle, h :: t => isPre needle (h :: t) || containsSubAux needle t

/-- Whether `needle` occurs as a contiguous substring of `hay`. -/
def containsSub (hay needle : String) : Bool := containsSubAux needle.data hay.data

/-! ### Behavioural checks of the embedding on concrete inputs -/

example : splitLines "a\nb\n" = ["a\n", "b\n"] := by decide

example : splitLines "a\r\nb" = ["a\r\n", "b"] := by decide

example : isJsonFile "dir/settings.JSON" = true := by decide

example : isJsonFile "a.txt" = false := by decide

example : isJsonFile ".json" = false := by decide

example : extname "a.tar.gz" = ".gz" := by decide

example : findJsonConflicts (jobj [("a", .num 1)]) (jarr [.num 1]) [] = [["a"], ["0"]] := by
  decide

example : findJsonConflicts .null (jobj []) [] = [[]] := by decide

example : findJsonConflicts (jarr [.num 1]) (jarr [.num 1, .num 2]) [] = [["1"]] := by decide

/-! ### Basic lemmas about the JSON model -/

theorem jsonListToListOfList (l : List Json) : (JsonList.ofList l).toList = l := by
  induction l with
  | nil => rfl
  | cons x xs ih => simp [JsonList.ofList, JsonList.toList, ih]

theorem jsonMemsToListOfList (l : List (String × Json)) :
    (JsonMems.ofList l).toList = l := by
  induction l with
  | nil => rfl
  | cons kv xs ih =>
    obtain ⟨k, v⟩ := kv
    simp [JsonMems.ofList, JsonMems.toList, ih]

theorem jsize_pos (v : Json) : 0 < jsize v := by
  cases v <;> simp [jsize]

theorem mem_dedupFirst (xs : List String) :
    ∀ (seen : List String) (a : String), a ∈ dedupFirst seen xs ↔ a ∈ xs ∧ a ∉ seen := by
  induction xs with
  | nil => intro seen a; simp [dedupFirst]
  | cons x xs ih =>
    intro seen a
    by_cases hx : x ∈ seen
    · rw [dedupFirst, if_pos hx, ih]
      simp only [List.mem_cons]
      constructor
      · rintro ⟨h1, h2⟩; exact ⟨Or.inr h1, h2⟩
      · rintro ⟨rfl | h1, h2⟩
        · exact absurd hx h2
        · exact ⟨h1, h2⟩
    · rw [dedupFirst, if_neg hx]
      simp only [List.mem_cons, ih, List.mem_cons]
      constructor
      · rintro (rfl | ⟨h1, h2⟩)
        · exact ⟨Or.inl rfl, hx⟩
        · exact ⟨Or.inr h1, fun hc => h2 (Or.inr hc)⟩
      · rintro ⟨rfl | h1, h2⟩
        · exact Or.inl rfl
        · by_cases hax : a = x
          · exact Or.inl hax
          · exact Or.inr ⟨h1, fun hc => hc.elim hax h2⟩

theorem objGet_isSome_iff (l : List (String × Json)) (k : String) :
    (objGet l k).isSome = true ↔ k ∈ l.map (fun kv => kv.1) := by
  induction l with
  | nil => simp [objGet]
  | cons kv rest ih =>
    simp only [objGet, List.map_cons, List.mem_cons]
    cases h : objGet rest k with
    | some v =>
      simp only [Option.isSome_some, true_iff]
      exact Or.inr (ih.mp (by simp [h]))
    | none =>
      by_cases hk : kv.1 = k
      · simp [hk]
      · simp only [if_neg hk, Option.isSome_none]
        constructor
        · intro hc; simp at hc
        · rintro (h1 | h1)
          · exact absurd h1.symm hk
          · exact absurd (ih.mpr h1) (by simp [h])

theorem objGet_eq_none (l : List (String × Json)) (k : String)
    (h : k ∉ l.map (fun kv => kv.1)) : objGet l k = none := by
  cases hg : objGet l k with
  | none => rfl
  | some v => exact absurd ((objGet_isSome_iff l k).mp (by simp [hg])) h

theorem objGet_mem_values (l : List (String × Json)) (k : String) (v : Json)
    (h : objGet l k = some v) : v ∈ l.map (fun kv => kv.2) := by
  induction l with
  | nil => simp [objGet] at h
  | cons kv rest ih =>
    simp only [objGet] at h
    cases hg : objGet rest k with
    | some w =>
      rw [hg] at h
      cases h
      exact List.mem_cons_of_mem _ (ih hg)
    | none =>
      rw [hg] at h
      by_cases hk : kv.1 = k
      · rw [if_pos hk] at h
        cases h
        exact List.mem_cons_self _ _
      · rw [if_neg hk] at h
        cases h

theorem jsizeL_elem : ∀ (xs : JsonList) (v : Json), v ∈ xs.toList → jsize v < 1 + jsizeL xs
  | .nil, v, h => by simp [JsonList.toList] at h
  | .cons hd tl, v, h => by
    rcases List.mem_cons.mp h with rfl | h
    · simp [jsizeL]; omega
    · have := jsizeL_elem tl v h
      simp [jsizeL] at this ⊢
      omega

theorem jsizeM_elem : ∀ (kvs : JsonMems) (v : Json),
    v ∈ kvs.toList.map (fun kv => kv.2) → jsize v < 1 + jsizeM kvs
  | .nil, v, h => by simp [JsonMems.toList] at h
  | .cons k w tl, v, h => by
    simp only [JsonMems.toList, List.map_cons, List.mem_cons] at h
    rcases h with rfl | h
    · simp [jsizeM]; omega
    · have := jsizeM_elem tl v h
      simp [jsizeM] at this ⊢
      omega

theorem jsize_lt_of_mem_list (xs : JsonList) (v : Json) (h : v ∈ xs.toList) :
    jsize v < jsize (.arr xs) := by
  have := jsizeL_elem xs v h
  simpa [jsize] using this

theorem jsize_lt_of_mem_mems (kvs : JsonMems) (v : Json)
    (h : v ∈ kvs.toList.map (fun kv => kv.2)) : jsize v < jsize (.obj kvs) := by
  have := jsizeM_elem kvs v h
  simpa [jsize] using this

theorem getProp_jsize (c : Json) (k : String) (v : Json) (h : getProp c k = some v) :
    jsize v < jsize c := by
  cases c with
  | obj kvs => exact jsize_lt_of_mem_mems kvs v (objGet_mem_values _ _ _ h)
  | arr xs =>
    simp only [getProp] at h
    cases hn : natKey? k with
    | some n =>
      rw [hn] at h
      exact jsize_lt_of_mem_list xs v (List.getElem?_mem h)
    | none => rw [hn] at h; cases h
  | null => simp [getProp] at h
  | bool b => simp [getProp] at h
  | num n => simp [getProp] at h
  | str s => simp [getProp] at h

theorem key_isSome_of_mem_objKeys (kvs : JsonMems) (k : String)
    (h : k ∈ jsKeys (.obj kvs)) : (objGet kvs.toList k).isSome = true := by
  simp only [jsKeys] at h
  exact (objGet_isSome_iff _ _).mpr ((mem_dedupFirst _ _ _).mp h).1

theorem fjcF_self : ∀ (n : Nat) (v : Json) (path : List String), fjcF n v v path = [] := by
  intro n
  induction n with
  | zero => intro v path; rfl
  | succ n ih =>
    intro v path
    cases v with
    | null => simp [fjcF, typeOf, isNull, primEq]
    | bool b => simp [fjcF, typeOf, isNull, primEq]
    | num i => simp [fjcF, typeOf, isNull, primEq]
    | str s => simp [fjcF, typeOf, isNull, primEq]
    | arr xs =>
      simp only [fjcF, typeOf, isNull, ne_eq, not_true_eq_false, if_false,
        Bool.not_false, Bool.false_eq_true, false_and, and_false, or_self,
        if_true, ite_false, ite_true, Nat.max_self]
      rw [List.flatMap_eq_nil_iff]
      intro i hi
      have hi' : i < xs.toList.length := by
        have := List.mem_range.mp hi
        simpa using this
      rw [List.getElem?_eq_getElem hi']
      exact ih _ _
    | obj kvs =>
      simp only [fjcF]
      rw [if_neg (by simp), if_neg (by simp [isNull, typeOf]), if_neg (by simp [isNull])]
      rw [List.flatMap_eq_nil_iff]
      intro k hk
      have hk1 : k ∈ jsKeys (Json.obj kvs) := by
        rcases (mem_dedupFirst _ _ _).mp hk with ⟨hmem, -⟩
        rcases List.mem_append.mp hmem with h | h <;> exact h
      obtain ⟨cv, hcv⟩ := Option.isSome_iff_exists.mp (key_isSome_of_mem_objKeys kvs k hk1)
      simp only [getProp]
      rw [hcv]
      exact ih _ _

theorem flatMapCongr {α β : Type} {l : List α} {f g : α → List β}
    (h : ∀ a ∈ l, f a = g a) : l.flatMap f = l.flatMap g := by
  induction l with
  | nil => rfl
  | cons x xs ih =>
    simp only [List.flatMap_cons]
    rw [h x (List.mem_cons_self _ _), ih (fun a ha => h a (List.mem_cons_of_mem _ ha))]

/-- Any two sufficient fuels compute the same conflict set. -/
theorem fjcF_congr : ∀ (B : Nat) (c s : Json) (path : List String) (n m : Nat),
    jsize c + jsize s ≤ B → jsize c + jsize s ≤ n → jsize c + jsize s ≤ m →
    fjcF n c s path = fjcF m c s path := by
  intro B
  induction B with
  | zero =>
    intro c s path n m hB _ _
    have := jsize_pos c
    omega
  | succ B ih =>
    intro c s path n m hB hn hm
    have hcp := jsize_pos c
    have hsp := jsize_pos s
    obtain ⟨n', rfl⟩ : ∃ n', n = n' + 1 := ⟨n - 1, by omega⟩
    obtain ⟨m', rfl⟩ : ∃ m', m = m' + 1 := ⟨m - 1, by omega⟩
    simp only [fjcF]
    by_cases h1 : typeOf c ≠ typeOf s
    · rw [if_pos h1, if_pos h1]
    · by_cases h2 : ¬ isNull c = true ∧ ¬ isNull s = true ∧ typeOf c ≠ "object"
      · rw [if_neg h1, if_neg h1, if_pos h2, if_pos h2]
      · by_cases h3 : isNull c = true ∨ isNull s = true
        · rw [if_neg h1, if_neg h1, if_neg h2, if_neg h2, if_pos h3, if_pos h3]
        · rw [if_neg h1, if_neg h1, if_neg h2, if_neg h2, if_neg h3, if_neg h3]
          have harr : ∀ (xs ys : JsonList), Json.arr xs = c → Json.arr ys = s →
              ((List.range (max xs.toList.length ys.toList.length)).flatMap (fun i =>
                match xs.toList[i]?, ys.toList[i]? with
                | some cv, some sv => fjcF n' cv sv (path ++ [toString i])
                | _, _ => [path ++ [toString i]]))
              = ((List.range (max xs.toList.length ys.toList.length)).flatMap (fun i =>
                match xs.toList[i]?, ys.toList[i]? with
                | some cv, some sv => fjcF m' cv sv (path ++ [toString i])
                | _, _ => [path ++ [toString i]])) := by
            intro xs ys hxc hys
            refine flatMapCongr (fun i hi => ?_)
            cases h4 : xs.toList[i]? with
            | none => rfl
            | some cv =>
              cases h5 : ys.toList[i]? with
              | none => rfl
              | some sv =>
                have hc := jsize_lt_of_mem_list xs cv (List.getElem?_mem h4)
                have hs := jsize_lt_of_mem_list ys sv (List.getElem?_mem h5)
                rw [hxc] at hc
                rw [hys] at hs
                exact ih cv sv _ n' m' (by omega) (by omega) (by omega)
          have hkeys : ∀ (c' s' : Json), c' = c → s' = s →
              ((dedupFirst [] (jsKeys c' ++ jsKeys s')).flatMap (fun k =>
                match getProp c' k, getProp s' k with
                | some cv, some sv => fjcF n' cv sv (path ++ [k])
                | _, _ => [path ++ [k]]))
              = ((dedupFirst [] (jsKeys c' ++ jsKeys s')).flatMap (fun k =>
                match getProp c' k, getProp s' k with
                | some cv, some sv => fjcF m' cv sv (path ++ [k])
                | _, _ => [path ++ [k]])) := by
            intro c' s' hc' hs'
            refine flatMapCongr (fun k hk => ?_)
            cases h4 : getProp c' k with
            | none => rfl
            | some cv =>
              cases h5 : getProp s' k with
              | none => rfl
              | some sv =>
                have hc := getProp_jsize c' k cv h4
                have hs := getProp_jsize s' k sv h5
                rw [hc'] at hc
                rw [hs'] at hs
                exact ih cv sv _ n' m' (by omega) (by omega) (by omega)
          cases c <;> cases s <;>
            first
            | exact harr _ _ rfl rfl
            | exact hkeys _ _ rfl rfl

/-- The wrapper equals the fuel-indexed body at any sufficient fuel. -/
theorem findJsonConflicts_eq_fjcF (c s : Json) (path : List String) (n : Nat)
    (hn : jsize c + jsize s ≤ n) : findJsonConflicts c s path = fjcF n c s path :=
  fjcF_congr (jsize c + jsize s) c s path _ n le_rfl le_rfl hn

/-- Unfolding equation for the union-of-keys branch: both values are
non-null containers and not both arrays. -/
theorem findJsonConflicts_keys (c s : Json) (path : List String)
    (hto : typeOf c = "object") (hts : typeOf s = "object")
    (hc : isNull c = false) (hs : isNull s = false)
    (hna : bothArr c s = false) :
    findJsonConflicts c s path
      = (dedupFirst [] (jsKeys c ++ jsKeys s)).flatMap (fun k =>
          match getProp c k, getProp s k with
          | some cv, some sv => findJsonConflicts cv sv (path ++ [k])
          | _, _ => [path ++ [k]]) := by
  have hcp := jsize_pos c
  have hsp := jsize_pos s
  obtain ⟨m, hm⟩ : ∃ m, jsize c + jsize s = m + 1 := ⟨jsize c + jsize s - 1, by omega⟩
  rw [findJsonConflicts, hm]
  simp only [fjcF]
  rw [if_neg (by rw [hto, hts]; exact fun h => h rfl)]
  rw [if_neg (by rw [hto]; rintro ⟨-, -, h⟩; exact h rfl)]
  rw [if_neg (by rw [hc, hs]; rintro (h | h) <;> simp at h)]
  have hgoal : ∀ (c' s' : Json), c' = c → s' = s → bothArr c' s' = false →
      (match c', s' with
        | .arr xs, .arr ys =>
          (List.range (max xs.toList.length ys.toList.length)).flatMap (fun i =>
            match xs.toList[i]?, ys.toList[i]? with
            | some cv, some sv => fjcF m cv sv (path ++ [toString i])
            | _, _ => [path ++ [toString i]])
        | c', s' =>
          (dedupFirst [] (jsKeys c' ++ jsKeys s')).flatMap (fun k =>
            match getProp c' k, getProp s' k with
            | some cv, some sv => fjcF m cv sv (path ++ [k])
            | _, _ => [path ++ [k]]))
      = (dedupFirst [] (jsKeys c' ++ jsKeys s')).flatMap (fun k =>
          match getProp c' k, getProp s' k with
          | some cv, some sv => findJsonConflicts cv sv (path ++ [k])
          | _, _ => [path ++ [k]]) := by
    intro c' s' hc' hs' hna'
    have hkeys : (dedupFirst [] (jsKeys c' ++ jsKeys s')).flatMap (fun k =>
        match getProp c' k, getProp s' k with
        | some cv, some sv => fjcF m cv sv (path ++ [k])
        | _, _ => [path ++ [k]])
        = (dedupFirst [] (jsKeys c' ++ jsKeys s')).flatMap (fun k =>
            match getProp c' k, getProp s' k with
            | some cv, some sv => findJsonConflicts cv sv (path ++ [k])
            | _, _ => [path ++ [k]]) := by
      refine flatMapCongr (fun k hk => ?_)
      cases h4 : getProp c' k with
      | none => rfl
      | some cv =>
        cases h5 : getProp s' k with
        | none => rfl
        | some sv =>
          have hlc := getProp_jsize c' k cv h4
          have hls := getProp_jsize s' k sv h5
          rw [hc'] at hlc
          rw [hs'] at hls
          exact (findJsonConflicts_eq_fjcF cv sv _ m (by omega)).symm
    cases c' <;> cases s' <;> first
      | exact hkeys
      | simp [bothArr] at hna'
  exact hgoal c s rfl rfl hna

/-- C5: for every parsed JSON value V (and any starting path), the JSON
structural differ applied to V and V returns the empty conflict-path
set. -/
theorem selfDiff_empty (v : Json) (path : List String) :
    findJsonConflicts v v path = [] :=
  fjcF_self _ v path

/-- C2 counterexample: the claim says values of differing runtime types
(for example an object versus an array) yield a conflict at exactly the
current path with no descent; but JavaScript typeof cannot distinguish
objects from arrays, so comparing the object with key "0" mapped to 5
against the one-element array [5] descends into the shared index key
and reports no conflict at all, instead of the root conflict the claim
requires. -/
theorem typeMismatch_counterexample :
    findJsonConflicts (jobj [("0", .num 5)]) (jarr [.num 5]) [] = []
      ∧ ¬ ([] : List String) ∈ findJsonConflicts (jobj [("0", .num 5)]) (jarr [.num 5]) [] := by
  decide

/-- C2 (amended): if the JavaScript typeof strings of the two values
differ — which separates primitives of different kinds and primitives
from containers, but not objects from arrays — the differ reports a
conflict at exactly the current path and does not descend; when one
value is an object and the other an array (both typeof "object"), the
differ instead descends using the union-of-keys object rule. -/
theorem typeMismatch_amended :
    (∀ (c s : Json) (path : List String), typeOf c ≠ typeOf s →
      findJsonConflicts c s path = [path])
    ∧ (∀ (kvs : JsonMems) (ys : JsonList) (path : List String),
        findJsonConflicts (.obj kvs) (.arr ys) path
          = (dedupFirst [] (jsKeys (.obj kvs) ++ jsKeys (.arr ys))).flatMap (fun k =>
              match getProp (.obj kvs) k, getProp (.arr ys) k with
              | some cv, some sv => findJsonConflicts cv sv (path ++ [k])
              | _, _ => [path ++ [k]])) := by
  constructor
  · intro c s path h
    have hcp := jsize_pos c
    have hsp := jsize_pos s
    obtain ⟨m, hm⟩ : ∃ m, jsize c + jsize s = m + 1 := ⟨jsize c + jsize s - 1, by omega⟩
    rw [findJsonConflicts, hm]
    simp only [fjcF]
    rw [if_pos h]
  · intro kvs ys path
    exact findJsonConflicts_keys (.obj kvs) (.arr ys) path rfl rfl rfl rfl rfl

/-- Witness for the amended C2 theorem at a concrete type-mismatching
pair. -/
theorem typeMismatch_amended_witness :
    findJsonConflicts (.num 1) (.str "one") ["p"] = [["p"]] :=
  typeMismatch_amended.1 (.num 1) (.str "one") ["p"] (by decide)

/-- C4: for current text a-LF-b-LF and shelved text a-LF-c-LF with
entry label X, the line-based conflict-marker builder emits the
unchanged run a-LF followed by one conflict block holding b on the left
and c on the right, delimited by the Current Workspace / Shelf: X
markers.  (The line differ itself is external library code, modelled
from spec section 4.1.) -/
theorem lineMarkerScenario :
    ∀ (tryParse : String → Option Json) (eol : String),
    insertConflictMarkersText tryParse eol "f.txt" "X" "a\nb\n" "a\nc\n"
      = "a\n<<<<<<< Current Workspace\nb\n=======\nc\n>>>>>>> Shelf: X\n" :=
  fun _ _ => rfl

/-- C7: whenever either text fails to parse as JSON, the JSON-typed
marker entry point returns the line-based marker text over the raw
texts — it neither fails nor consults the structural differ. -/
theorem parseFailureFallback :
    ∀ (tryParse : String → Option Json) (eol entryName currentText shelfText : String),
    tryParse currentText = none ∨ tryParse shelfText = none →
    insertJsonConflictMarkersText tryParse eol entryName currentText shelfText
      = lineMarkerText eol entryName currentText shelfText := by
  intro T eol nm ct st h
  rcases h with h | h
  · cases hs : T st <;> simp [insertJsonConflictMarkersText, h, hs]
  · cases hc : T ct <;> simp [insertJsonConflictMarkersText, h, hc]

/-- Witness for the parse-failure fallback at a concrete failing
parser. -/
theorem parseFailureFallback_witness :
    insertJsonConflictMarkersText (fun _ => none) "\n" "X" "a" "b"
      = lineMarkerText "\n" "X" "a" "b" :=
  parseFailureFallback (fun _ => none) "\n" "X" "a" "b" (Or.inl rfl)

/-- C6: comparing two objects takes the union of their keys: a key
present on one side only conflicts at path plus that key; a key present
on both sides recurses (every conflict found below is reported); and
the object with key a mapped to 1 against the object with a mapped to 1
and b mapped to 2 yields exactly the conflicting path list containing
the single path b. -/
theorem objectUnionKeys :
    (∀ (cs ss : List (String × Json)) (path : List String) (k : String),
      k ∈ cs.map (fun kv => kv.1) → ¬ k ∈ ss.map (fun kv => kv.1) →
      (path ++ [k]) ∈ findJsonConflicts (jobj cs) (jobj ss) path)
    ∧ (∀ (cs ss : List (String × Json)) (path : List String) (k : String)
        (cv sv : Json), objGet cs k = some cv → objGet ss k = some sv →
        findJsonConflicts cv sv (path ++ [k]) ⊆ findJsonConflicts (jobj cs) (jobj ss) path)
    ∧ findJsonConflicts (jobj [("a", .num 1)]) (jobj [("a", .num 1), ("b", .num 2)]) []
        = [["b"]] := by
  refine ⟨?_, ?_, by decide⟩
  · intro cs ss path k hin hout
    rw [findJsonConflicts_keys (jobj cs) (jobj ss) path rfl rfl rfl rfl rfl]
    refine List.mem_flatMap.mpr ⟨k, ?_, ?_⟩
    · refine (mem_dedupFirst _ _ _).mpr ⟨List.mem_append.mpr (Or.inl ?_), by simp⟩
      show k ∈ jsKeys (Json.obj (JsonMems.ofList cs))
      simp only [jsKeys, jsonMemsToListOfList]
      exact (mem_dedupFirst _ _ _).mpr ⟨hin, by simp⟩
    · have hnone : getProp (jobj ss) k = none := by
        simp only [jobj, getProp, jsonMemsToListOfList]
        exact objGet_eq_none ss k hout
      obtain ⟨cv, hcv⟩ := Option.isSome_iff_exists.mp ((objGet_isSome_iff cs k).mpr hin)
      have hsome : getProp (jobj cs) k = some cv := by
        simp only [jobj, getProp, jsonMemsToListOfList]
        exact hcv
      rw [hsome, hnone]
      simp
  · intro cs ss path k cv sv hc hs x hx
    rw [findJsonConflicts_keys (jobj cs) (jobj ss) path rfl rfl rfl rfl rfl]
    have hkc : k ∈ cs.map (fun kv => kv.1) := (objGet_isSome_iff cs k).mp (by simp [hc])
    refine List.mem_flatMap.mpr ⟨k, ?_, ?_⟩
    · refine (mem_dedupFirst _ _ _).mpr ⟨List.mem_append.mpr (Or.inl ?_), by simp⟩
      show k ∈ jsKeys (Json.obj (JsonMems.ofList cs))
      simp only [jsKeys, jsonMemsToListOfList]
      exact (mem_dedupFirst _ _ _).mpr ⟨hkc, by simp⟩
    · have h1 : getProp (jobj cs) k = some cv := by
        simp only [jobj, getProp, jsonMemsToListOfList]
        exact hc
      have h2 : getProp (jobj ss) k = some sv := by
        simp only [jobj, getProp, jsonMemsToListOfList]
        exact hs
      rw [h1, h2]
      exact hx

/-- Witness for C6 at concrete objects: the shelf-only key b conflicts,
and a conflict found when recursing into the shared key a is reported
by the outer object comparison. -/
theorem objectUnionKeys_witness :
    (([] : List String) ++ ["b"])
        ∈ findJsonConflicts (jobj [("b", .num 2)]) (jobj []) []
      ∧ ["a"] ∈ findJsonConflicts (jobj [("a", .num 1)]) (jobj [("a", .num 2)]) [] :=
  ⟨objectUnionKeys.1 [("b", .num 2)] [] [] "b" (by decide) (by decide),
   objectUnionKeys.2.1 [("a", .num 1)] [("a", .num 2)] [] "a" (.num 1) (.num 2)
     rfl rfl (by decide)⟩

theorem tallyResult_add (a b : UnshelveSummary) (r : RestoreFileResult) :
    tallyResult (addSummary a b) r = addSummary a (tallyResult b r) := by
  obtain ⟨st, cf⟩ := r
  cases st <;> cases cf <;> simp [tallyResult, addSummary, Nat.add_assoc]

theorem restoreStep_add (tryParse : String → Option Json) (eol : String)
    (policy : String → ConflictResolutionChoice) (entryName : String)
    (workspacePath entryDir : String) (forceOverride : Bool)
    (a : UnshelveSummary) (st : UnshelveSummary × FSModel) (rp : String) :
    restoreStep tryParse eol policy entryName workspacePath entryDir forceOverride
        (addSummary a st.1, st.2) rp
      = (addSummary a (restoreStep tryParse eol policy entryName workspacePath entryDir
            forceOverride st rp).1,
         (restoreStep tryParse eol policy entryName workspacePath entryDir
            forceOverride st rp).2) := by
  simp only [restoreStep]
  cases h : restoreSingleFile tryParse eol policy entryName st.2 rp workspacePath entryDir
      forceOverride with
  | ok pr => simp [tallyResult_add]
  | error e => simp [addSummary, Nat.add_assoc]

theorem restoreFold_add (tryParse : String → Option Json) (eol : String)
    (policy : String → ConflictResolutionChoice) (entryName : String)
    (workspacePath entryDir : String) (forceOverride : Bool) :
    ∀ (paths : List String) (a : UnshelveSummary) (st : UnshelveSummary × FSModel),
    paths.foldl (restoreStep tryParse eol policy entryName workspacePath entryDir forceOverride)
        (addSummary a st.1, st.2)
      = (addSummary a (paths.foldl (restoreStep tryParse eol policy entryName workspacePath
            entryDir forceOverride) st).1,
         (paths.foldl (restoreStep tryParse eol policy entryName workspacePath
            entryDir forceOverride) st).2) := by
  intro paths
  induction paths with
  | nil => intro a st; rfl
  | cons p ps ih =>
    intro a st
    simp only [List.foldl_cons]
    rw [restoreStep_add]
    exact ih a _

theorem addSummary_empty_right (a : UnshelveSummary) : addSummary a emptySummary = a := by
  simp [addSummary, emptySummary]

theorem outcomeTotal_tally (s : UnshelveSummary) (r : RestoreFileResult) :
    outcomeTotal (tallyResult s r) = outcomeTotal s + 1 := by
  obtain ⟨st, cf⟩ := r
  cases st <;> cases cf <;> simp [tallyResult, outcomeTotal] <;> omega

theorem outcomeTotal_step (tryParse : String → Option Json) (eol : String)
    (policy : String → ConflictResolutionChoice) (entryName : String)
    (workspacePath entryDir : String) (forceOverride : Bool)
    (st : UnshelveSummary × FSModel) (rp : String) :
    outcomeTotal (restoreStep tryParse eol policy entryName workspacePath entryDir
        forceOverride st rp).1 = outcomeTotal st.1 + 1 := by
  simp only [restoreStep]
  cases h : restoreSingleFile tryParse eol policy entryName st.2 rp workspacePath entryDir
      forceOverride with
  | ok pr => simp [outcomeTotal_tally]
  | error e => simp [outcomeTotal]; omega

theorem outcomeTotal_fold (tryParse : String → Option Json) (eol : String)
    (policy : String → ConflictResolutionChoice) (entryName : String)
    (workspacePath entryDir : String) (forceOverride : Bool) :
    ∀ (paths : List String) (st : UnshelveSummary × FSModel),
    outcomeTotal (paths.foldl (restoreStep tryParse eol policy entryName workspacePath
        entryDir forceOverride) st).1 = outcomeTotal st.1 + paths.length := by
  intro paths
  induction paths with
  | nil => intro st; simp
  | cons p ps ih =>
    intro st
    simp only [List.foldl_cons, List.length_cons]
    rw [ih _, outcomeTotal_step]
    omega

/-- C9: every relative path processed by a restore invocation lands in
exactly one of the counters restored, identical, skipped,
conflictMarkers, errors, so their sum equals the number of input
paths. -/
theorem outcomeCountersPartition (tryParse : String → Option Json) (eol : String)
    (policy : String → ConflictResolutionChoice) (entryName : String) (fs : FSModel)
    (relativePaths : List String) (workspacePath entryDir : String)
    (forceOverride : Bool) :
    outcomeTotal (restoreFilesFromShelf tryParse eol policy entryName fs relativePaths
        workspacePath entryDir forceOverride).1 = relativePaths.length := by
  rw [restoreFilesFromShelf]
  rw [outcomeTotal_fold tryParse eol policy entryName workspacePath entryDir forceOverride
    relativePaths (emptySummary, fs)]
  simp [outcomeTotal, emptySummary]

/-- C8: a path whose snapshot file is missing is recorded as one
per-file error (the orchestrator returns normally rather than
throwing), and the remaining paths still produce exactly the summary
and file-system state they would have produced on their own. -/
theorem missingSnapshotContinues (tryParse : String → Option Json) (eol : String)
    (policy : String → ConflictResolutionChoice) (entryName : String) (fs : FSModel)
    (p : String) (rest : List String) (workspacePath entryDir : String)
    (forceOverride : Bool) (h : fs (pathJoin entryDir p) = none) :
    restoreFilesFromShelf tryParse eol policy entryName fs (p :: rest) workspacePath
        entryDir forceOverride
      = (addSummary oneErrorSummary
          (restoreFilesFromShelf tryParse eol policy entryName fs rest workspacePath
            entryDir forceOverride).1,
         (restoreFilesFromShelf tryParse eol policy entryName fs rest workspacePath
            entryDir forceOverride).2) := by
  rw [restoreFilesFromShelf, restoreFilesFromShelf]
  simp only [List.foldl_cons]
  have hstep : restoreStep tryParse eol policy entryName workspacePath entryDir
      forceOverride (emptySummary, fs) p = (addSummary oneErrorSummary emptySummary, fs) := by
    simp only [restoreStep, restoreSingleFile, h]
    rw [show ({ emptySummary with errors := emptySummary.errors + 1 } : UnshelveSummary)
      = addSummary oneErrorSummary emptySummary by decide]
  rw [hstep]
  exact restoreFold_add tryParse eol policy entryName workspacePath entryDir forceOverride
    rest oneErrorSummary (emptySummary, fs)

/-- Witness for C8 at a concrete empty file system: the single missing
path is counted as one error on top of the empty batch. -/
theorem missingSnapshotContinues_witness :
    restoreFilesFromShelf (fun _ => none) "\n" (fun _ => .skip) "S" (fun _ => none)
        ["f.txt"] "ws" "shelf" false
      = (addSummary oneErrorSummary
          (restoreFilesFromShelf (fun _ => none) "\n" (fun _ => .skip) "S" (fun _ => none)
            [] "ws" "shelf" false).1,
         (restoreFilesFromShelf (fun _ => none) "\n" (fun _ => .skip) "S" (fun _ => none)
            [] "ws" "shelf" false).2) :=
  missingSnapshotContinues (fun _ => none) "\n" (fun _ => .skip) "S" (fun _ => none)
    "f.txt" [] "ws" "shelf" false rfl

/-- C1 counterexample: with force-override active and differing bytes
(current old-LF, snapshot new-LF) the orchestrator does overwrite the
destination and records outcome restored, but it reports the conflict
flag as false, so the conflicts counter stays 0 instead of
incrementing to 1 as the claim states. -/
theorem forcedOverwrite_counterexample :
    (restoreFilesFromShelf (fun _ => none) "\n" (fun _ => .skip) "S"
        (fun p => if p = "shelf/f.txt" then some "new\n"
          else if p = "ws/f.txt" then some "old\n" else none)
        ["f.txt"] "ws" "shelf" true).2 "ws/f.txt" = some "new\n"
    ∧ (restoreFilesFromShelf (fun _ => none) "\n" (fun _ => .skip) "S"
        (fun p => if p = "shelf/f.txt" then some "new\n"
          else if p = "ws/f.txt" then some "old\n" else none)
        ["f.txt"] "ws" "shelf" true).1.restored = 1
    ∧ (restoreFilesFromShelf (fun _ => none) "\n" (fun _ => .skip) "S"
        (fun p => if p = "shelf/f.txt" then some "new\n"
          else if p = "ws/f.txt" then some "old\n" else none)
        ["f.txt"] "ws" "shelf" true).1.conflicts = 0
    ∧ ¬ (restoreFilesFromShelf (fun _ => none) "\n" (fun _ => .skip) "S"
        (fun p => if p = "shelf/f.txt" then some "new\n"
          else if p = "ws/f.txt" then some "old\n" else none)
        ["f.txt"] "ws" "shelf" true).1.conflicts = 1 := by
  decide

/-- C1 (amended): when the current bytes differ from the shelved bytes
and force-override is active, the destination is overwritten with the
shelved bytes and the outcome is restored, but the per-file conflict
flag is false, so the summary conflicts counter is not incremented. -/
theorem forcedOverwrite_amended (tryParse : String → Option Json) (eol : String)
    (policy : String → ConflictResolutionChoice) (entryName : String) (fs : FSModel)
    (relativePath workspacePath entryDir sc tc : String)
    (h1 : fs (pathJoin entryDir relativePath) = some sc)
    (h2 : fs (pathJoin workspacePath relativePath) = some tc) (hneq : sc ≠ tc) :
    restoreSingleFile tryParse eol policy entryName fs relativePath workspacePath
        entryDir true
      = .ok ({ status := .restored, conflict := false },
          fsWrite fs (pathJoin workspacePath relativePath) sc) := by
  simp only [restoreSingleFile, h1, h2]
  rw [if_neg hneq]
  rfl

/-- Witness for the amended C1 theorem at the concrete old-LF versus
new-LF scenario. -/
theorem forcedOverwrite_amended_witness :
    restoreSingleFile (fun _ => none) "\n" (fun _ => .skip) "S"
        (fun p => if p = "shelf/f.txt" then some "new\n"
          else if p = "ws/f.txt" then some "old\n" else none)
        "f.txt" "ws" "shelf" true
      = .ok ({ status := .restored, conflict := false },
          fsWrite (fun p => if p = "shelf/f.txt" then some "new\n"
            else if p = "ws/f.txt" then some "old\n" else none) "ws/f.txt" "new\n") :=
  forcedOverwrite_amended (fun _ => none) "\n" (fun _ => .skip) "S"
    (fun p => if p = "shelf/f.txt" then some "new\n"
      else if p = "ws/f.txt" then some "old\n" else none)
    "f.txt" "ws" "shelf" "new\n" "old\n" (by decide) (by decide) (by decide)

/-- C3 counterexample: the claim says the rendering traversal uses the
union of indices/keys, so shelved-only structure at a conflicting
sub-path is visited and emits a conflict block with the "(deleted)"
sentinel; but for arrays the builder only renders indices below the
current array's length: with current [1] and shelved [1, 2] the index
path 1 is a conflicting path, yet the output is the plain rendering of
[1], with no conflict marker and no "(deleted)" sentinel. -/
theorem unionTraversal_counterexample :
    ["1"] ∈ findJsonConflicts (jarr [.num 1]) (jarr [.num 1, .num 2]) []
    ∧ buildJsonWithConflicts (jarr [.num 1]) (jarr [.num 1, .num 2])
        (findJsonConflicts (jarr [.num 1]) (jarr [.num 1, .num 2]) []) "E" "\n"
        = "[\n  1\n]"
    ∧ containsSub (buildJsonWithConflicts (jarr [.num 1]) (jarr [.num 1, .num 2])
        (findJsonConflicts (jarr [.num 1]) (jarr [.num 1, .num 2]) []) "E" "\n")
        "(deleted)" = false
    ∧ containsSub (buildJsonWithConflicts (jarr [.num 1]) (jarr [.num 1, .num 2])
        (findJsonConflicts (jarr [.num 1]) (jarr [.num 1, .num 2]) []) "E" "\n")
        "<<<<<<< Current Workspace" = false := by
  decide

theorem jsonListTake_toList : ∀ (n : Nat) (ys : JsonList),
    (jsonListTake n ys).toList = ys.toList.take n
  | 0, ys => by cases ys <;> simp [jsonListTake, JsonList.toList]
  | n + 1, .nil => by simp [jsonListTake, JsonList.toList]
  | n + 1, .cons x xs => by
    simp [jsonListTake, JsonList.toList, jsonListTake_toList n xs]

theorem filterMapCongr {α β : Type} {l : List α} {f g : α → Option β}
    (h : ∀ a ∈ l, f a = g a) : l.filterMap f = l.filterMap g := by
  induction l with
  | nil => rfl
  | cons x xs ih =>
    simp only [List.filterMap_cons]
    rw [h x (List.mem_cons_self _ _), ih (fun a ha => h a (List.mem_cons_of_mem _ ha))]

theorem filterMapRangeNoneAbove {β : Type} (F : Nat → Option β) (a m : Nat) (ham : a ≤ m)
    (hF : ∀ i, a ≤ i → F i = none) :
    (List.range m).filterMap F = (List.range a).filterMap F := by
  obtain ⟨d, rfl⟩ : ∃ d, m = a + d := ⟨m - a, by omega⟩
  rw [List.range_add a d, List.filterMap_append]
  have hnil : ((List.range d).map (a + ·)).filterMap F = [] := by
    rw [List.filterMap_eq_nil_iff]
    intro i hi
    obtain ⟨j, hj, rfl⟩ := List.mem_map.mp hi
    exact hF (a + j) (by omega)
  rw [hnil, List.append_nil]

/-- One-step unfolding of the builder at a conflicting node: the
conflict block is emitted regardless of which sides are present. -/
theorem buildValueF_conflict_succ (cset : List String) (entryName le : String) (n : Nat)
    (currentVal shelfVal : Option Json) (path : List String) (indent : Nat)
    (hc : String.intercalate "." path ∈ cset) :
    buildValueF cset entryName le (n + 1) currentVal shelfVal path indent
      = "<<<<<<< Current Workspace" ++ le
          ++ indentUnits indent ++ "  " ++ conflictSide (indentUnits indent) currentVal ++ le
          ++ indentUnits indent ++ "=======" ++ le
          ++ indentUnits indent ++ "  " ++ conflictSide (indentUnits indent) shelfVal ++ le
          ++ indentUnits indent ++ ">>>>>>> Shelf: " ++ entryName ++ le := by
  simp only [buildValueF]
  rw [if_pos hc]

/-- One-step unfolding of the builder at a non-conflicting pair of
objects: one rendered pair per key of the union, keyed lookups on both
sides, recursion one level down. -/
theorem buildValueF_objObj_succ (cset : List String) (entryName le : String) (n : Nat)
    (kvs svs : JsonMems) (path : List String) (indent : Nat)
    (hnc : ¬ String.intercalate "." path ∈ cset)
    (hne : ¬ (dedupFirst [] (jsKeys (.obj kvs) ++ jsKeys (.obj svs))).length = 0) :
    buildValueF cset entryName le (n + 1) (some (.obj kvs)) (some (.obj svs)) path indent
      = "\x7b\n" ++ String.intercalate ",\n"
          ((dedupFirst [] (jsKeys (.obj kvs) ++ jsKeys (.obj svs))).map (fun key =>
            indentUnits indent ++ "  " ++ jsonQuote key ++ ": "
              ++ buildValueF cset entryName le n (objGet kvs.toList key)
                  (getProp (.obj svs) key) (path ++ [key]) (indent + 1)))
          ++ "\n" ++ indentUnits indent ++ "\x7d" := by
  simp only [buildValueF]
  rw [if_neg hnc, if_neg hne]

/-- One-step unfolding of the builder at a non-conflicting, non-empty
pair of arrays: the index range runs over the maximum length, but an
item is rendered only under the guard index < current length. -/
theorem buildValueF_arrArr_succ (cset : List String) (entryName le : String) (n : Nat)
    (xs ys : JsonList) (path : List String) (indent : Nat)
    (hnc : ¬ String.intercalate "." path ∈ cset) (hne : ¬ xs.toList.length = 0) :
    buildValueF cset entryName le (n + 1) (some (.arr xs)) (some (.arr ys)) path indent
      = "[\n" ++ String.intercalate ",\n"
          ((List.range (max xs.toList.length ys.toList.length)).filterMap (fun index =>
            if h : index < xs.toList.length then
              some (indentUnits indent ++ "  "
                ++ buildValueF cset entryName le n (some (xs.toList.get ⟨index, h⟩))
                    ys.toList[index]? (path ++ [toString index]) (indent + 1))
            else none))
          ++ "\n" ++ indentUnits indent ++ "]" := by
  simp only [buildValueF]
  rw [if_neg hnc, if_neg hne]

/-- C3 (amended): the builder's object traversal does use the union of
keys — for every builder input, an object key present only on the
shelved side whose sub-path is conflicting is visited and emits a
conflict block whose current side is the literal "(deleted)" sentinel —
while the array traversal renders only indices present in the current
array, so, for every builder input, the output at an array node is
unchanged when the shelved array is truncated to the current length:
shelved-only array elements are never visited and emit nothing.  The
final two conjuncts instantiate both halves through the public
buildJsonWithConflicts entry point on the concrete scenarios. -/
theorem unionTraversal_amended :
    (∀ (cset : List String) (entryName le : String) (n : Nat) (kvs svs : JsonMems)
        (path : List String) (indent : Nat) (k : String),
      ¬ String.intercalate "." path ∈ cset →
      String.intercalate "." (path ++ [k]) ∈ cset →
      ¬ k ∈ kvs.toList.map (fun kv => kv.1) →
      k ∈ svs.toList.map (fun kv => kv.1) →
      ∃ pairs : List String,
        buildValueF cset entryName le (n + 2) (some (.obj kvs)) (some (.obj svs)) path indent
          = "\x7b\n" ++ String.intercalate ",\n" pairs
              ++ "\n" ++ indentUnits indent ++ "\x7d"
        ∧ (indentUnits indent ++ "  " ++ jsonQuote k ++ ": "
            ++ ("<<<<<<< Current Workspace" ++ le
              ++ indentUnits (indent + 1) ++ "  " ++ "(deleted)" ++ le
              ++ indentUnits (indent + 1) ++ "=======" ++ le
              ++ indentUnits (indent + 1) ++ "  "
                ++ conflictSide (indentUnits (indent + 1)) (getProp (.obj svs) k) ++ le
              ++ indentUnits (indent + 1) ++ ">>>>>>> Shelf: " ++ entryName ++ le))
            ∈ pairs)
    ∧ (∀ (cset : List String) (entryName le : String) (n : Nat) (xs ys : JsonList)
        (path : List String) (indent : Nat),
      ¬ String.intercalate "." path ∈ cset →
      buildValueF cset entryName le n (some (.arr xs)) (some (.arr ys)) path indent
        = buildValueF cset entryName le n (some (.arr xs))
            (some (.arr (jsonListTake xs.toList.length ys))) path indent)
    ∧ buildJsonWithConflicts (jobj [("a", .num 1)]) (jobj [("a", .num 1), ("b", .num 2)])
        (findJsonConflicts (jobj [("a", .num 1)])
          (jobj [("a", .num 1), ("b", .num 2)]) []) "E" "\n"
      = "\x7b\n  \"a\": 1,\n  \"b\": <<<<<<< Current Workspace\n    (deleted)\n  =======\n    2\n  >>>>>>> Shelf: E\n\n\x7d"
    ∧ buildJsonWithConflicts (jarr [.num 1]) (jarr [.num 1, .num 2])
        (findJsonConflicts (jarr [.num 1]) (jarr [.num 1, .num 2]) []) "E" "\n"
        = "[\n  1\n]" := by
  refine ⟨?_, ?_, by decide, by decide⟩
  · intro cset entryName le n kvs svs path indent k hnc hconf hnotc hins
    have hkShelf : k ∈ jsKeys (Json.obj svs) := by
      simp only [jsKeys]
      exact (mem_dedupFirst _ _ _).mpr ⟨hins, by simp⟩
    have hkAll : k ∈ dedupFirst [] (jsKeys (Json.obj kvs) ++ jsKeys (Json.obj svs)) :=
      (mem_dedupFirst _ _ _).mpr ⟨List.mem_append.mpr (Or.inr hkShelf), by simp⟩
    have hne : ¬ (dedupFirst [] (jsKeys (.obj kvs) ++ jsKeys (.obj svs))).length = 0 := by
      intro h0
      rw [List.length_eq_zero] at h0
      rw [h0] at hkAll
      simp at hkAll
    refine ⟨_, buildValueF_objObj_succ cset entryName le (n + 1) kvs svs path indent
      hnc hne, ?_⟩
    refine List.mem_map.mpr ⟨k, hkAll, ?_⟩
    rw [objGet_eq_none kvs.toList k hnotc]
    rw [buildValueF_conflict_succ cset entryName le n none (getProp (.obj svs) k)
      (path ++ [k]) (indent + 1) hconf]
    rfl
  · intro cset entryName le n xs ys path indent hnc
    cases n with
    | zero => rfl
    | succ n =>
      by_cases hl : xs.toList.length = 0
      · simp only [buildValueF]
        rw [if_neg hnc, if_neg hnc, if_pos hl, if_pos hl]
      · rw [buildValueF_arrArr_succ cset entryName le n xs ys path indent hnc hl,
          buildValueF_arrArr_succ cset entryName le n xs (jsonListTake xs.toList.length ys)
            path indent hnc hl]
        have hTake : (jsonListTake xs.toList.length ys).toList
            = ys.toList.take xs.toList.length := jsonListTake_toList _ _
        rw [hTake, List.length_take, Nat.max_eq_left (Nat.min_le_left _ _)]
        rw [filterMapRangeNoneAbove
          (fun index =>
            if h : index < xs.toList.length then
              some (indentUnits indent ++ "  "
                ++ buildValueF cset entryName le n (some (xs.toList.get ⟨index, h⟩))
                    ys.toList[index]? (path ++ [toString index]) (indent + 1))
            else none)
          xs.toList.length (max xs.toList.length ys.toList.length)
          (Nat.le_max_left _ _) (fun i hi => dif_neg (by omega))]
        have hmap : ((List.range xs.toList.length).filterMap (fun index =>
            if h : index < xs.toList.length then
              some (indentUnits indent ++ "  "
                ++ buildValueF cset entryName le n (some (xs.toList.get ⟨index, h⟩))
                    ys.toList[index]? (path ++ [toString index]) (indent + 1))
            else none))
            = ((List.range xs.toList.length).filterMap (fun index =>
            if h : index < xs.toList.length then
              some (indentUnits indent ++ "  "
                ++ buildValueF cset entryName le n (some (xs.toList.get ⟨index, h⟩))
                    (ys.toList.take xs.toList.length)[index]? (path ++ [toString index])
                    (indent + 1))
            else none)) := by
          refine filterMapCongr (fun i hi => ?_)
          have hilt : i < xs.toList.length := List.mem_range.mp hi
          rw [dif_pos hilt, dif_pos hilt, List.getElem?_take_of_lt hilt]
        rw [hmap]

/-- Witness for the amended C3 theorem: both universal halves applied
at the concrete scenario inputs, discharging every hypothesis. -/
theorem unionTraversal_amended_witness :
    (∃ pairs : List String,
      buildValueF ["b"] "E" "\n" 2 (some (.obj (JsonMems.ofList [("a", Json.num 1)])))
          (some (.obj (JsonMems.ofList [("a", Json.num 1), ("b", Json.num 2)]))) [] 0
        = "\x7b\n" ++ String.intercalate ",\n" pairs ++ "\n" ++ indentUnits 0 ++ "\x7d"
      ∧ (indentUnits 0 ++ "  " ++ jsonQuote "b" ++ ": "
          ++ ("<<<<<<< Current Workspace" ++ "\n"
            ++ indentUnits (0 + 1) ++ "  " ++ "(deleted)" ++ "\n"
            ++ indentUnits (0 + 1) ++ "=======" ++ "\n"
            ++ indentUnits (0 + 1) ++ "  "
              ++ conflictSide (indentUnits (0 + 1))
                (getProp (.obj (JsonMems.ofList [("a", Json.num 1), ("b", Json.num 2)]))
                  "b") ++ "\n"
            ++ indentUnits (0 + 1) ++ ">>>>>>> Shelf: " ++ "E" ++ "\n")) ∈ pairs)
    ∧ buildValueF [] "E" "\n" 4 (some (.arr (JsonList.ofList [Json.num 1])))
          (some (.arr (JsonList.ofList [Json.num 1, Json.num 2]))) [] 0
        = buildValueF [] "E" "\n" 4 (some (.arr (JsonList.ofList [Json.num 1])))
            (some (.arr (jsonListTake (JsonList.ofList [Json.num 1]).toList.length
              (JsonList.ofList [Json.num 1, Json.num 2])))) [] 0 :=
  ⟨unionTraversal_amended.1 ["b"] "E" "\n" 0 (JsonMems.ofList [("a", Json.num 1)])
      (JsonMems.ofList [("a", Json.num 1), ("b", Json.num 2)]) [] 0 "b"
      (by decide) (by decide) (by decide) (by decide),
    unionTraversal_amended.2.1 [] "E" "\n" 4 (JsonList.ofList [Json.num 1])
      (JsonList.ofList [Json.num 1, Json.num 2]) [] 0 (by decide)⟩

set_option maxRecDepth 100000 in
/-- C10: conflict membership in the JSON marker builder is decided by
the dot-joined path string, so the object key "a.b" collides with the
nested path a then b: comparing two objects that differ only at the
literal key "a.b" produces that single conflict path, yet the rendered
output also marks the non-conflicting nested node a.b (equal value 1 on
both sides) as a conflict block. -/
theorem dotJoinedPathCollision :
    findJsonConflicts (jobj [("a.b", .num 1), ("a", jobj [("b", .num 1)])])
        (jobj [("a.b", .num 2), ("a", jobj [("b", .num 1)])]) [] = [["a.b"]]
    ∧ ¬ ["a", "b"] ∈ findJsonConflicts (jobj [("a.b", .num 1), ("a", jobj [("b", .num 1)])])
        (jobj [("a.b", .num 2), ("a", jobj [("b", .num 1)])]) []
    ∧ containsSub (buildJsonWithConflicts
        (jobj [("a.b", .num 1), ("a", jobj [("b", .num 1)])])
        (jobj [("a.b", .num 2), ("a", jobj [("b", .num 1)])])
        (findJsonConflicts (jobj [("a.b", .num 1), ("a", jobj [("b", .num 1)])])
          (jobj [("a.b", .num 2), ("a", jobj [("b", .num 1)])]) []) "E" "\n")
        "\"b\": <<<<<<< Current Workspace" = true
    ∧ buildJsonWithConflicts
        (jobj [("a.b", .num 1), ("a", jobj [("b", .num 1)])])
        (jobj [("a.b", .num 2), ("a", jobj [("b", .num 1)])])
        (findJsonConflicts (jobj [("a.b", .num 1), ("a", jobj [("b", .num 1)])])
          (jobj [("a.b", .num 2), ("a", jobj [("b", .num 1)])]) []) "E" "\n"
      = "\x7b\n  \"a.b\": <<<<<<< Current Workspace\n    1\n  =======\n    2\n  >>>>>>> Shelf: E\n,\n  \"a\": \x7b\n    \"b\": <<<<<<< Current Workspace\n      1\n    =======\n      1\n    >>>>>>> Shelf: E\n\n  \x7d\n\x7d" := by
  decide
